import Mathlib

/-!
Verification of the ForTunnels client data-plane subsystem.

The Go sources are shallowly embedded: byte slices become `List Nat`
(each element an octet value), machine counters become `Nat` with an
explicit reduction modulo 2^64 where the source uses `uint64`, Go's
`time.Duration` (an `int64`) becomes `Int` with an explicit two's
complement wrap where the source multiplies, and fallible operations
return `Except String` or `Option`.  External libraries that the code
calls (the XChaCha20-Poly1305 AEAD, SHA-256, `encoding/json`) are
parameters of the embedded functions; the repository's own logic is
translated literally.
-/

namespace FT

/-! ## Byte-level helpers (encoding/binary BigEndian) -/

/-- Big-endian encoding of `n` into `k` bytes, as written by
`binary.BigEndian.PutUintNN` (the value is taken modulo 256^k by
construction of the digits). -/
def beBytes : Nat → Nat → List Nat
  | 0, _ => []
  | k + 1, n => beBytes k (n / 256) ++ [n % 256]

/-- Big-endian decoding of a byte list, as read by
`binary.BigEndian.UintNN`. -/
def beDec (xs : List Nat) : Nat :=
  xs.foldl (fun acc b => acc * 256 + b) 0

/-- `io.ReadFull` on a buffered byte stream: succeed with exactly `k`
bytes and the remaining stream, or fail when fewer are available. -/
def readExact (k : Nat) (xs : List Nat) : Option (List Nat × List Nat) :=
  if k ≤ xs.length then some (xs.take k, xs.drop k) else none

/-! ## internal/support: size conversions (part_009, ToUint16Size /
ToUint32Size).  The Go source also rejects negative `int` inputs; the
`Nat` domain makes that branch vacuous. -/

def toUint16Size (n : Nat) : Except String Nat :=
  if n > 65535 then .error "value exceeds uint16 range" else .ok n

def toUint32Size (n : Nat) : Except String Nat :=
  if n > 4294967295 then .error "value exceeds uint32 range" else .ok n

/-! ## UDP frame codec (part_007: writeUDPPacket / readUDPPacket) -/

def udpMaxPacketSize : Nat := 65535

/-- `writeUDPPacket`: two-byte big-endian length header followed by the
payload; the length conversion fails for payloads over 65535 bytes. -/
def writeUDPPacket (payload : List Nat) : Except String (List Nat) :=
  match toUint16Size payload.length with
  | .error e => .error e
  | .ok length => .ok (beBytes 2 length ++ payload)

/-- `readUDPPacket`: read the two header bytes, reject `n <= 0` or
`n > udpMaxPacketSize` with `io.ErrUnexpectedEOF`, then read exactly `n`
payload bytes.  Returns the payload and the unconsumed stream. -/
def readUDPPacket (input : List Nat) : Except String (List Nat × List Nat) :=
  match readExact 2 input with
  | none => .error "EOF"
  | some (hdr, rest) =>
    let n := beDec hdr
    if n = 0 ∨ n > udpMaxPacketSize then .error "unexpected EOF"
    else
      match readExact n rest with
      | none => .error "unexpected EOF"
      | some (buf, rest2) => .ok (buf, rest2)

/-! ## internal/security: the AEAD wrapper (psk.go) -/

/-- The external XChaCha20-Poly1305 cipher keyed by some fixed key:
`seal nonce plaintext` and `aeadOpen nonce ciphertext` stand for
`cipher.AEAD.Seal` and `cipher.AEAD.Open` of golang.org/x/crypto.
Two `ClientAEAD` endpoints built from the same PSK and tunnel id hold
the same key, hence the same `AEADAlg`. -/
structure AEADAlg where
  aeadSeal : List Nat → List Nat → List Nat
  aeadOpen : List Nat → List Nat → Option (List Nat)

/-- The 24-byte nonce built by `ClientAEAD.Write`: `make([]byte, 24)`
(all zero) with `binary.BigEndian.PutUint64(nonce[16:], c.encCtr)`.
`encCtr` is a `uint64`, hence the reduction modulo 2^64. -/
def writeNonce (encCtr : Nat) : List Nat :=
  List.replicate 16 0 ++ beBytes 8 (encCtr % 18446744073709551616)

/-- `ClientAEAD.Write`.  State: the `encCtr` field before the call.
`hdrOk` and `ctOk` are the outcomes of the two `c.base.Write` calls.
Returns (the `(int, error)` result, the new `encCtr`, the bytes that
reached the underlying stream). -/
def clientAEADWrite (a : AEADAlg) (encCtr : Nat) (p : List Nat)
    (hdrOk ctOk : Bool) : Except String Nat × Nat × List Nat :=
  let nonce := writeNonce encCtr
  let ctr1 := (encCtr + 1) % 18446744073709551616
  let ct := a.aeadSeal nonce p
  match toUint32Size ct.length with
  | .error e => (.error e, ctr1, [])
  | .ok l =>
    let hdr := beBytes 4 l ++ nonce
    if hdrOk then
      if ctOk then (.ok p.length, ctr1, hdr ++ ct)
      else (.error "write ct", ctr1, hdr)
    else (.error "write hdr", ctr1, [])

/-- `ClientAEAD.Read` with a caller buffer of `bufLen` bytes reading
from the byte stream `input`: read the 28-byte header
(4-byte length, 24-byte nonce), read `l` ciphertext bytes, open, and
copy into the buffer; a buffer smaller than the plaintext yields
`io.ErrShortBuffer` (the Go code then returns the truncated count
together with that error).  On success returns the plaintext and the
unconsumed stream. -/
def clientAEADRead (a : AEADAlg) (bufLen : Nat) (input : List Nat) :
    Except String (List Nat × List Nat) :=
  match readExact 28 input with
  | none => .error "EOF"
  | some (hdr, rest) =>
    let l := beDec (hdr.take 4)
    let nonce := hdr.drop 4
    match readExact l rest with
    | none => .error "EOF"
    | some (buf, rest2) =>
      match a.aeadOpen nonce buf with
      | none => .error "message authentication failed"
      | some pt =>
        if pt.length ≤ bufLen then .ok (pt, rest2)
        else .error "short buffer"

/-- Iterated `ClientAEAD.Write` of a list of plaintexts over a stream
whose writes all succeed: threads `encCtr` exactly as the method does
and also records the nonce each call used.  Returns the final counter,
the nonces, and the concatenated bytes put on the wire. -/
def writeAll (a : AEADAlg) (encCtr : Nat) :
    List (List Nat) → Except String (Nat × List (List Nat) × List Nat)
  | [] => .ok (encCtr, [], [])
  | p :: ps =>
    match clientAEADWrite a encCtr p true true with
    | (.ok _, ctr1, out) =>
      match writeAll a ctr1 ps with
      | .ok (ctr2, ns, rest) => .ok (ctr2, writeNonce encCtr :: ns, out ++ rest)
      | .error e => .error e
    | (.error e, _, _) => .error e

/-- Iterated `ClientAEAD.Read` of `n` frames. Returns the plaintexts in
order and the leftover stream. -/
def readSeq (a : AEADAlg) (bufLen : Nat) :
    Nat → List Nat → Except String (List (List Nat) × List Nat)
  | 0, input => .ok ([], input)
  | n + 1, input =>
    match clientAEADRead a bufLen input with
    | .error e => .error e
    | .ok (pt, rest) =>
      match readSeq a bufLen n rest with
      | .error e => .error e
      | .ok (ps, rest2) => .ok (pt :: ps, rest2)

/-! ## internal/security + part_006: wrapping selection
(`ClientPSK.Wrap`, `WrapClientStream`) -/

/-- Result of `WrapClientStream` / `ClientPSK.Wrap`: the stream
unchanged, the stream wrapped in a `ClientAEAD` with the derived key,
or the `nil` connection `Wrap` returns when the cipher cannot be
built. -/
inductive WrapResult where
  | unchanged : WrapResult
  | wrappedAEAD : List Nat → WrapResult
  | nilConn : WrapResult
deriving DecidableEq

/-- `ClientPSK.Wrap`: derive `key = sha256(secret ‖ tunnelID)` and build
the XChaCha20-Poly1305 cipher, which fails exactly when the key is not
32 bytes (`chacha20poly1305.KeySize`).  `sha256` is the external hash,
passed as a parameter; the real one always returns 32 bytes. -/
def clientPSKWrap (sha256 : List Nat → List Nat)
    (secret tunnelID : List Nat) : WrapResult :=
  let key := sha256 (secret ++ tunnelID)
  if key.length = 32 then .wrappedAEAD key else .nilConn

/-- `WrapClientStream` (part_006): wrap only when `enc.Enabled`; the PSK
is forwarded to `NewClientPSK` without any emptiness check. -/
def WrapClientStream (sha256 : List Nat → List Nat) (enabled : Bool)
    (psk tunnelID : List Nat) : WrapResult :=
  if !enabled then .unchanged
  else clientPSKWrap sha256 psk tunnelID

/-! ## part_006: the stream bridge and its error classification -/

/-- Errors as the Go code distinguishes them: the sentinel values
`io.EOF`, `io.ErrUnexpectedEOF` and `net.ErrClosed` (compared with
`errors.Is` / `==`), and any other error carrying only its text. -/
inductive GoErr where
  | eof : GoErr
  | unexpectedEOF : GoErr
  | errClosed : GoErr
  | mk : String → GoErr
deriving DecidableEq

/-- `err.Error()` for the modelled errors. -/
def goErrMsg : GoErr → String
  | .eof => "EOF"
  | .unexpectedEOF => "unexpected EOF"
  | .errClosed => "use of closed network connection"
  | .mk m => m

/-- Is `pre` a leading segment of `hay`? (`strings.HasPrefix`). -/
def leadsWith : List Char → List Char → Bool
  | [], _ => true
  | _ :: _, [] => false
  | a :: as, b :: bs => a = b && leadsWith as bs

/-- Does `needle` occur inside `hay`? -/
def hasSub (needle : List Char) : List Char → Bool
  | [] => needle.isEmpty
  | c :: rest => leadsWith needle (c :: rest) || hasSub needle rest

/-- `strings.Contains`. -/
def strContains (s sub : String) : Bool :=
  hasSub sub.data s.data

/-- `isClosedPipe` (part_006). -/
def isClosedPipe (e : GoErr) : Bool :=
  strContains (goErrMsg e) "closed pipe"

/-- Whether `startBufferedCopy` (part_006) logs a bridge error line for
the result `e` of `io.CopyBuffer`:
`err != nil && err != io.EOF && !isClosedPipe(err)`. -/
def startBufferedCopyLogs : Option GoErr → Bool
  | none => false
  | some e => !(e == GoErr.eof) && !(isClosedPipe e)

/-- `support.IsBenignCopyError` (part_009). -/
def IsBenignCopyError : Option GoErr → Bool
  | none => true
  | some e =>
    e == GoErr.eof || e == GoErr.unexpectedEOF || e == GoErr.errClosed ||
    (strContains (goErrMsg e) "use of closed network connection" ||
     strContains (goErrMsg e) "broken pipe" ||
     strContains (goErrMsg e) "connection reset by peer" ||
     strContains (goErrMsg e) "stream closed" ||
     strContains (goErrMsg e) "EOF")

/-- The benign close family named by the spec (section 4.10):
end-of-file, unexpected-end-of-file, closed-network-connection,
broken-pipe, connection-reset, closed-pipe (`io.ErrClosedPipe`'s text),
"stream closed", "use of closed network connection". -/
def benignFamily : List GoErr :=
  [GoErr.eof, GoErr.unexpectedEOF, GoErr.errClosed,
   GoErr.mk "broken pipe",
   GoErr.mk "connection reset by peer",
   GoErr.mk "io: read/write on closed pipe",
   GoErr.mk "stream closed",
   GoErr.mk "use of closed network connection"]

/-! ## shared/wsconn: the WebSocket stream adapter -/

/-- One queued WebSocket message: binary or non-binary payload. -/
inductive WSMsg where
  | bin : List Nat → WSMsg
  | other : List Nat → WSMsg

/-- The adapter's observable state: the `conn == nil` guard, the queue
of messages `NextReader` will deliver, the error `NextReader` returns
once the queue is exhausted, and the current in-progress message
reader. -/
structure WSConnSt where
  connNil : Bool
  msgs : List WSMsg
  endErr : String
  curr : Option (List Nat)

/-- `isConnClosed` (wsconn.go). -/
def isConnClosedStr (msg : String) : Bool :=
  strContains msg "websocket: close" ||
  strContains msg "use of closed network connection" ||
  strContains msg "connection closed" ||
  strContains msg "connection reset by peer" ||
  strContains msg "broken pipe"

/-- Result of a `WSConn.Read` call. -/
inductive ReadRes where
  | bytes : Nat → List Nat → ReadRes
  | eofEnd : ReadRes
  | fail : String → ReadRes
  | fuelOut : ReadRes
deriving DecidableEq

/-- The retry loop of `WSConn.Read` after the buffer-size check; the
third component counts `NextReader` calls made on the underlying
`websocket.Conn`. -/
def wsReadLoop (bufLen : Nat) : Nat → WSConnSt → ReadRes × WSConnSt × Nat
  | 0, st => (.fuelOut, st, 0)
  | fuel + 1, st =>
    match st.curr with
    | none =>
      if st.connNil then (.eofEnd, st, 0)
      else
        match st.msgs with
        | [] =>
          if isConnClosedStr st.endErr then (.eofEnd, st, 1)
          else (.fail st.endErr, st, 1)
        | WSMsg.other _ :: rest =>
          match wsReadLoop bufLen fuel { st with msgs := rest } with
          | (r, st1, k) => (r, st1, k + 1)
        | WSMsg.bin d :: rest =>
          match wsReadLoop bufLen fuel
              { st with msgs := rest, curr := some d } with
          | (r, st1, k) => (r, st1, k + 1)
    | some d =>
      match d with
      | [] => wsReadLoop bufLen fuel { st with curr := none }
      | _ :: _ =>
        let n := min bufLen d.length
        (.bytes n (d.take n), { st with curr := some (d.drop n) }, 0)

/-- `WSConn.Read` with a caller buffer of `bufLen` bytes: buffers over
`MaxWebSocketFrameSize = 64 * 1024` are rejected before the connection
is touched. -/
def wsConnRead (bufLen fuel : Nat) (st : WSConnSt) : ReadRes × WSConnSt × Nat :=
  if bufLen > 64 * 1024 then
    (.fail "requested buffer size exceeds maximum allowed", st, 0)
  else wsReadLoop bufLen fuel st

/-- `WSConn.Write` of a `pLen`-byte buffer: messages over
`MaxWebSocketMessageSize = 1024 * 1024` are rejected before
`NextWriter` is called.  `nextWriterOk` is the outcome of the
underlying write; the second component counts operations on the
underlying connection. -/
def wsConnWrite (pLen : Nat) (nextWriterOk : Bool) : Option String × Nat :=
  if pLen > 1024 * 1024 then (some "message size exceeds maximum allowed", 0)
  else if nextWriterOk then (none, 1) else (some "next writer error", 1)

/-! ## part_003: the session manager -/

/-- Two's complement wrap of an `Int` into the `int64` range, the
semantics of Go arithmetic on `time.Duration`. -/
def wrap64 (x : Int) : Int :=
  (x + 9223372036854775808) % 18446744073709551616 - 9223372036854775808

/-- `nextBackoff` (part_003): `next := current * 2` in `int64`
arithmetic, clamped to `limit` from above. -/
def nextBackoff (current limit : Int) : Int :=
  let next := wrap64 (current * 2)
  if next > limit then limit else next

/-- A live-or-closed smux session as the manager sees it
(`sess.IsClosed()`). -/
structure SessSt where
  id : Nat
  closed : Bool
deriving DecidableEq

/-- The manager state guarded by `m.mu`: the `stopped` flag, the current
session and the current websocket connection. -/
structure MgrSt where
  stopped : Bool
  sess : Option SessSt
  conn : Option Nat
deriving DecidableEq

/-- Outcome of one dial iteration: `websocket.Dial` fails,
`initializeSession` (the smux handshake) fails, or both succeed and
yield the session `id`. -/
inductive DialOutcome where
  | dialFail : DialOutcome
  | initFail : DialOutcome
  | ok : Nat → DialOutcome
deriving DecidableEq

/-- Result of `Manager.EnsureSession`: the terminal "stopped" error, the
"invalid websocket url" error, a session, or `pending` when the supplied
list of dial outcomes is exhausted while the code would still be
retrying. -/
inductive EnsureRes where
  | stoppedErr : EnsureRes
  | invalidURL : EnsureRes
  | sessOk : SessSt → EnsureRes
  | pending : EnsureRes
deriving DecidableEq

/-- `Manager.Close`: set `stopped`, close and drop the session and the
connection.  (Closing the underlying handles is an external effect; the
manager state afterwards is as below.) -/
def managerClose (_m : MgrSt) : MgrSt :=
  { stopped := true, sess := none, conn := none }

/-- The dial-and-backoff loop inside `EnsureSession`, driven by a list
of dial outcomes.  Returns the result, the new manager state, the
number of dial attempts made, and the list of `time.Sleep` durations
in order.  The `m.stopped` re-check of the source is kept even though
the mutex makes it constant within one call. -/
def dialLoop (m : MgrSt) (backoff boMax : Int) :
    List DialOutcome → EnsureRes × MgrSt × Nat × List Int
  | [] => (.pending, m, 0, [])
  | o :: rest =>
    if m.stopped then (.stoppedErr, m, 0, [])
    else
      match o with
      | .ok id =>
        (.sessOk ⟨id, false⟩,
         { m with sess := some ⟨id, false⟩, conn := some id }, 1, [])
      | _ =>
        match dialLoop m (nextBackoff backoff boMax) boMax rest with
        | (r, m1, d, sl) => (r, m1, d + 1, backoff :: sl)

/-- `Manager.EnsureSession`: under the lock, fail if stopped, return the
current session if alive, otherwise build the dial parameters (`urlOk`
models `sessionDialParams` succeeding) and enter the backoff loop
starting at `m.boInit`. -/
def ensureSession (m : MgrSt) (urlOk : Bool) (outcomes : List DialOutcome)
    (boInit boMax : Int) : EnsureRes × MgrSt × Nat × List Int :=
  if m.stopped then (.stoppedErr, m, 0, [])
  else
    match m.sess with
    | some s =>
      if !s.closed then (.sessOk s, m, 0, [])
      else if !urlOk then (.invalidURL, m, 0, [])
      else dialLoop m boInit boMax outcomes
    | none =>
      if !urlOk then (.invalidURL, m, 0, [])
      else dialLoop m boInit boMax outcomes

/-- The sleep durations the backoff loop produces for `k` consecutive
failures: start at `b0`, then double-and-clamp each time. -/
def backoffSeq (b0 boMax : Int) : Nat → List Int
  | 0 => []
  | k + 1 => b0 :: backoffSeq (nextBackoff b0 boMax) boMax k

/-! ## part_001 / part_005: preface codec and line reader -/

/-- A decoded preface: Go's `map[string]string` as an association list
with distinct keys (`encoding/json` never produces duplicates). -/
abbrev PrefMap := List (List Char × List Char)

/-- `pre["dst"]`: Go map indexing, empty string for a missing key. -/
def mapGet : PrefMap → List Char → List Char
  | [], _ => []
  | (k, v) :: rest, key => if k = key then v else mapGet rest key

/-- Does the map carry the key? -/
def mapHasKey : PrefMap → List Char → Bool
  | [], _ => false
  | (k, _) :: rest, key => k = key || mapHasKey rest key

def dstKey : List Char := ['d', 's', 't']

/-- `encodePreface` (part_001): `json.Marshal(fields)` followed by a
literal newline.  `marshal` is the external `encoding/json` encoder
(which never fails on a `map[string]string`). -/
def encodePreface (marshal : PrefMap → List Char) (fields : PrefMap) :
    List Char :=
  marshal fields ++ ['\n']

/-- Index of the first newline in the stream, if any. -/
def newlineIdx : List Char → Option Nat
  | [] => none
  | c :: cs => if c = '\n' then some 0 else (newlineIdx cs).map (· + 1)

/-- `bufio.Reader.ReadString('\n')`: the bytes up to and including the
first newline, plus the unconsumed stream; an error when end of input
arrives first (the Go call then also surfaces the partial data, which
`readStreamDestination` discards). -/
def readLine (input : List Char) : Except String (List Char × List Char) :=
  match newlineIdx input with
  | none => .error "EOF"
  | some i => .ok (input.take (i + 1), input.drop (i + 1))

/-- Is the character in Go's `unicode.IsSpace` set?  (ASCII fragment;
the preface protocol is ASCII JSON.) -/
def isWS (c : Char) : Bool :=
  c = ' ' || c = '\t' || c = '\n' || c = '\r' ||
  c = Char.ofNat 11 || c = Char.ofNat 12

/-- `strings.TrimSpace`: drop trailing then leading whitespace. -/
def trimSpace (s : List Char) : List Char :=
  List.dropWhile isWS ((List.dropWhile isWS s.reverse).reverse)

/-- `readStreamDestination` (part_005): read a line with
`ReadString('\n')` (inlined from `readLine` so that the skip loop
recurses on a structurally shorter remainder), trim it, skip it if
empty, otherwise `json.Unmarshal` it (the external decoder `dec`) and
return the `dst` field. -/
def readStreamDestination (dec : List Char → Option PrefMap) :
    List Char → Except String (List Char)
  | [] => .error "EOF"
  | c :: cs =>
    match newlineIdx (c :: cs) with
    | none => .error "EOF"
    | some i =>
      let line := (c :: cs).take (i + 1)
      let rest := (c :: cs).drop (i + 1)
      if trimSpace line = [] then readStreamDestination dec rest
      else
        match dec (trimSpace line) with
        | none => .error "invalid preface json"
        | some pre => .ok (mapGet pre dstKey)
termination_by input => input.length
decreasing_by
  simp only [List.length_drop, List.length_cons]
  omega

/-- A concrete fragment of `encoding/json`'s `Unmarshal` used for
counterexample inputs: it decodes exactly the objects of the form
`x7b"dst":"<value>"x7d` whose value contains no quote or backslash,
precisely as the real decoder does on such inputs. -/
def scanVal : List Char → Option (List Char × List Char)
  | [] => none
  | c :: rest =>
    if c = '"' then some ([], rest)
    else
      match scanVal rest with
      | some (v, r) => some (c :: v, r)
      | none => none

def decodeDstOnly (s : List Char) : Option PrefMap :=
  match s with
  | '{' :: '"' :: 'd' :: 's' :: 't' :: '"' :: ':' :: '"' :: rest =>
    match scanVal rest with
    | some (v, ['}']) => some [(dstKey, v)]
    | _ => none
  | _ => none

/-- An 8-byte preamble, a 70000-character value and the closing quote
and brace: a syntactically valid preface line of 70010 bytes, well over
the 64 KiB = 65536-byte cap the specification demands. -/
def bigVal : List Char := List.replicate 70000 'a'

def bigLine : List Char :=
  ['{', '"', 'd', 's', 't', '"', ':', '"'] ++ bigVal ++ ['"', '}']

/-- A small concrete preface line, the `encoding/json` encoding of the
one-entry map `dst -> x`, used to instantiate the abstract codec in
witnesses. -/
def smallPreface : List Char :=
  ['{', '"', 'd', 's', 't', '"', ':', '"', 'x', '"', '}']

/-- A trivially invertible cipher instance (ciphertext = plaintext)
used to instantiate the abstract `AEADAlg` parameter in witnesses. -/
def idAEAD : AEADAlg :=
  { aeadSeal := fun _ p => p, aeadOpen := fun _ c => some c }

/-! ## Supporting lemmas -/

theorem beBytes_length (k : Nat) : ∀ n, (beBytes k n).length = k := by
  induction k with
  | zero => intro n; rfl
  | succ k ih => intro n; simp [beBytes, ih]

theorem beDec_append_one (xs : List Nat) (b : Nat) :
    beDec (xs ++ [b]) = beDec xs * 256 + b := by
  simp [beDec, List.foldl_append]

theorem beDec_beBytes (k : Nat) :
    ∀ n, n < 256 ^ k → beDec (beBytes k n) = n := by
  induction k with
  | zero =>
    intro n h
    simp only [pow_zero, Nat.lt_one_iff] at h
    simp [beBytes, beDec, h]
  | succ k ih =>
    intro n h
    have hdiv : n / 256 < 256 ^ k := by
      rw [Nat.div_lt_iff_lt_mul (by norm_num)]
      calc n < 256 ^ (k + 1) := h
        _ = 256 ^ k * 256 := by rw [pow_succ]
    rw [beBytes, beDec_append_one, ih (n / 256) hdiv]
    omega

theorem readExact_append (xs ys : List Nat) (k : Nat) (h : xs.length = k) :
    readExact k (xs ++ ys) = some (xs, ys) := by
  subst h
  simp [readExact, List.take_left, List.drop_left]

theorem take_append_len {α : Type} (xs ys : List α) (k : Nat)
    (h : xs.length = k) : (xs ++ ys).take k = xs := by
  subst h; exact List.take_left xs ys

theorem drop_append_len {α : Type} (xs ys : List α) (k : Nat)
    (h : xs.length = k) : (xs ++ ys).drop k = ys := by
  subst h; exact List.drop_left xs ys

theorem writeNonce_length (c : Nat) : (writeNonce c).length = 24 := by
  simp [writeNonce, beBytes_length]

theorem writeNonce_congr (x y : Nat)
    (h : x % 18446744073709551616 = y % 18446744073709551616) :
    writeNonce x = writeNonce y := by
  unfold writeNonce; rw [h]

/-- The successful-path reduction of one `ClientAEAD.Write`. -/
theorem clientAEADWrite_ok (a : AEADAlg) (ctr : Nat) (p : List Nat)
    (h : (a.aeadSeal (writeNonce ctr) p).length ≤ 4294967295) :
    clientAEADWrite a ctr p true true =
      (.ok p.length, (ctr + 1) % 18446744073709551616,
       (beBytes 4 (a.aeadSeal (writeNonce ctr) p).length ++ writeNonce ctr) ++
         a.aeadSeal (writeNonce ctr) p) := by
  simp only [clientAEADWrite, toUint32Size]
  rw [if_neg (by omega)]
  rfl

/-- One `ClientAEAD.Read` undoes one `ClientAEAD.Write`'s wire bytes. -/
theorem clientAEADRead_frame (a : AEADAlg) (bufLen : Nat) (p tail : List Nat)
    (nonce : List Nat) (hn : nonce.length = 24)
    (hOpen : a.aeadOpen nonce (a.aeadSeal nonce p) = some p)
    (hct : (a.aeadSeal nonce p).length ≤ 4294967295)
    (hbuf : p.length ≤ bufLen) :
    clientAEADRead a bufLen
      (beBytes 4 (a.aeadSeal nonce p).length ++
        (nonce ++ (a.aeadSeal nonce p ++ tail))) = .ok (p, tail) := by
  have hhdr : (beBytes 4 (a.aeadSeal nonce p).length ++ nonce).length = 28 := by
    simp [beBytes_length, hn]
  unfold clientAEADRead
  rw [← List.append_assoc, readExact_append _ _ 28 hhdr]
  simp only [take_append_len (beBytes 4 (a.aeadSeal nonce p).length) nonce 4
      (beBytes_length 4 _),
    drop_append_len (beBytes 4 (a.aeadSeal nonce p).length) nonce 4
      (beBytes_length 4 _),
    beDec_beBytes 4 (a.aeadSeal nonce p).length (by norm_num; omega),
    readExact_append (a.aeadSeal nonce p) tail _ rfl, hOpen]
  rw [if_pos hbuf]

/-- Iterated writes starting from any counter value produce exactly the
frames that `readSeq` decodes back, and record the nonces
`writeNonce ctr, writeNonce (ctr+1), ...`. -/
theorem writeAll_readSeq_spec (a : AEADAlg) (bufLen : Nat)
    (hOpen : ∀ nonce p, a.aeadOpen nonce (a.aeadSeal nonce p) = some p) :
    ∀ (Ps : List (List Nat)) (ctr : Nat) (extra : List Nat),
      ctr < 18446744073709551616 →
      (∀ p ∈ Ps, p.length ≤ bufLen) →
      (∀ nonce p, p ∈ Ps → (a.aeadSeal nonce p).length ≤ 4294967295) →
      ∃ out,
        writeAll a ctr Ps =
          .ok ((ctr + Ps.length) % 18446744073709551616,
               (List.range Ps.length).map (fun i => writeNonce (ctr + i)),
               out) ∧
        readSeq a bufLen Ps.length (out ++ extra) = .ok (Ps, extra) := by
  intro Ps
  induction Ps with
  | nil =>
    intro ctr extra hctr _ _
    refine ⟨[], ?_, by simp [readSeq]⟩
    simp [writeAll, Nat.mod_eq_of_lt hctr]
  | cons p ps ih =>
    intro ctr extra hctr hbuf hseal
    have hct : (a.aeadSeal (writeNonce ctr) p).length ≤ 4294967295 :=
      hseal (writeNonce ctr) p (by simp)
    have hctr1 : (ctr + 1) % 18446744073709551616 < 18446744073709551616 :=
      Nat.mod_lt _ (by norm_num)
    obtain ⟨out2, hw2, hr2⟩ :=
      ih ((ctr + 1) % 18446744073709551616) extra hctr1
        (fun q hq => hbuf q (by simp [hq]))
        (fun nonce q hq => hseal nonce q (by simp [hq]))
    refine ⟨((beBytes 4 (a.aeadSeal (writeNonce ctr) p).length ++
        writeNonce ctr) ++ a.aeadSeal (writeNonce ctr) p) ++ out2, ?_, ?_⟩
    · have hA : ((ctr + 1) % 18446744073709551616 + ps.length) %
            18446744073709551616 =
          (ctr + (ps.length + 1)) % 18446744073709551616 := by
        omega
      have hB : writeNonce ctr ::
            (List.range ps.length).map
              (fun i => writeNonce ((ctr + 1) % 18446744073709551616 + i)) =
          (List.range (ps.length + 1)).map (fun i => writeNonce (ctr + i)) := by
        simp only [List.range_succ_eq_map, List.map_cons, List.map_map]
        refine congrArg₂ List.cons (by simp) (List.map_congr_left ?_)
        intro i _
        show writeNonce ((ctr + 1) % 18446744073709551616 + i) =
          writeNonce (ctr + (i + 1))
        exact writeNonce_congr _ _ (by omega)
      simp only [writeAll, clientAEADWrite_ok a ctr p hct, hw2,
        List.length_cons, hA, hB, List.append_assoc]
    · have hfr := clientAEADRead_frame a bufLen p (out2 ++ extra)
        (writeNonce ctr) (writeNonce_length ctr) (hOpen _ p) hct
        (hbuf p (by simp))
      simp only [List.length_cons, readSeq, List.append_assoc, hfr, hr2]

/-! ## Claim theorems -/

/-- Claim C2: for every payload of length between 1 and 65535,
`readUDPPacket` undoes `writeUDPPacket` (with any trailing stream
preserved); a frame whose 16-bit big-endian length header is zero is
rejected on read; and `writeUDPPacket` fails for payloads longer than
65535 bytes. -/
theorem udp_packet_roundtrip_and_bounds :
    (∀ (P rest : List Nat), 1 ≤ P.length → P.length ≤ 65535 →
      ∃ out, writeUDPPacket P = .ok out ∧
        readUDPPacket (out ++ rest) = .ok (P, rest)) ∧
    (∀ rest : List Nat,
      readUDPPacket (0 :: 0 :: rest) = .error "unexpected EOF") ∧
    (∀ P : List Nat, P.length > 65535 →
      writeUDPPacket P = .error "value exceeds uint16 range") := by
  refine ⟨?_, ?_, ?_⟩
  · intro P rest h1 h2
    refine ⟨beBytes 2 P.length ++ P, ?_, ?_⟩
    · unfold writeUDPPacket toUint16Size
      rw [if_neg (by omega)]
    · have hlen : beDec (beBytes 2 P.length) = P.length :=
        beDec_beBytes 2 P.length (by norm_num; omega)
      unfold readUDPPacket
      rw [List.append_assoc,
        readExact_append (beBytes 2 P.length) (P ++ rest) 2 (beBytes_length 2 _)]
      simp only [hlen, udpMaxPacketSize]
      rw [if_neg (by omega), readExact_append P rest P.length rfl]
  · intro rest
    have h2 : readExact 2 (0 :: 0 :: rest) = some ([0, 0], rest) := by
      simp [readExact]
    unfold readUDPPacket
    rw [h2]
    simp [beDec]
  · intro P h
    unfold writeUDPPacket toUint16Size
    rw [if_pos h]

/-- Claim C1: for any key (any AEAD cipher instance with the library's
open-undoes-seal contract), a sequence of `ClientAEAD.Write` calls with
plaintexts P1..Pn starting from the zero counter produces a byte stream
that a reader with the same key decodes back to P1..Pn in order;
the nonce of the k-th write (1-indexed) is 24 bytes: 16 zero bytes
followed by k-1 as a big-endian 64-bit unsigned integer; the counter
increases by one per write and the nonces are never reused while the
counter stays within the 64-bit range (hence the hypothesis
`Ps.length ≤ 2^64`). -/
theorem aead_roundtrip_nonce_counter (a : AEADAlg) (Ps : List (List Nat))
    (bufLen : Nat) (extra : List Nat)
    (hOpen : ∀ nonce p, a.aeadOpen nonce (a.aeadSeal nonce p) = some p)
    (hSeal : ∀ nonce p, p ∈ Ps → (a.aeadSeal nonce p).length ≤ 4294967295)
    (hBuf : ∀ p ∈ Ps, p.length ≤ bufLen)
    (hN : Ps.length ≤ 18446744073709551616) :
    ∃ out,
      writeAll a 0 Ps =
        .ok (Ps.length % 18446744073709551616,
             (List.range Ps.length).map writeNonce, out) ∧
      readSeq a bufLen Ps.length (out ++ extra) = .ok (Ps, extra) ∧
      (∀ k, k < Ps.length →
        writeNonce k = List.replicate 16 0 ++ beBytes 8 k ∧
        (writeNonce k).length = 24 ∧
        (writeNonce k).take 16 = List.replicate 16 0 ∧
        (writeNonce k).drop 16 = beBytes 8 k ∧
        beDec (beBytes 8 k) = k) ∧
      (∀ i j, i < Ps.length → j < Ps.length → i ≠ j →
        writeNonce i ≠ writeNonce j) := by
  obtain ⟨out, hw, hr⟩ :=
    writeAll_readSeq_spec a bufLen hOpen Ps 0 extra (by norm_num) hBuf hSeal
  have hEnc : ∀ k, k < 18446744073709551616 →
      writeNonce k = List.replicate 16 0 ++ beBytes 8 k := by
    intro k hk
    simp [writeNonce, Nat.mod_eq_of_lt hk]
  have hstruct : ∀ k, k < Ps.length →
      writeNonce k = List.replicate 16 0 ++ beBytes 8 k ∧
      (writeNonce k).length = 24 ∧
      (writeNonce k).take 16 = List.replicate 16 0 ∧
      (writeNonce k).drop 16 = beBytes 8 k ∧
      beDec (beBytes 8 k) = k := by
    intro k hk
    have hk64 : k < 18446744073709551616 := by omega
    refine ⟨hEnc k hk64, writeNonce_length k, ?_, ?_, ?_⟩
    · rw [hEnc k hk64, take_append_len _ _ 16 (List.length_replicate 16 0)]
    · rw [hEnc k hk64, drop_append_len _ _ 16 (List.length_replicate 16 0)]
    · exact beDec_beBytes 8 k (by norm_num; omega)
  refine ⟨out, ?_, hr, hstruct, ?_⟩
  · rw [hw]
    refine congrArg Except.ok (Prod.ext (by simp) (Prod.ext ?_ rfl))
    show (List.range Ps.length).map (fun i => writeNonce (0 + i)) =
      (List.range Ps.length).map writeNonce
    simp
  · intro i j hi hj hij hcontra
    have hi64 : i < 18446744073709551616 := by omega
    have hj64 : j < 18446744073709551616 := by omega
    rw [hEnc i hi64, hEnc j hj64] at hcontra
    have hb : beBytes 8 i = beBytes 8 j := by
      have := List.append_cancel_left hcontra
      exact this
    have : i = j := by
      have hdi := beDec_beBytes 8 i (by norm_num; omega)
      have hdj := beDec_beBytes 8 j (by norm_num; omega)
      rw [← hdi, ← hdj, hb]
    exact hij this

/-- Witness for C1: the identity cipher, plaintexts `[[1, 2], [3]]`, a
2-byte read buffer and trailing stream `[5]`; all four hypotheses are
discharged at these values. -/
theorem aead_roundtrip_nonce_counter_witness :
    (∀ nonce p, idAEAD.aeadOpen nonce (idAEAD.aeadSeal nonce p) = some p) ∧
    (∀ nonce p, p ∈ [[1, 2], [3]] →
      (idAEAD.aeadSeal nonce p).length ≤ 4294967295) ∧
    (∀ p ∈ [[1, 2], [3]], List.length p ≤ 2) ∧
    ([[1, 2], [3]] : List (List Nat)).length ≤ 18446744073709551616 ∧
    (∃ out,
      writeAll idAEAD 0 [[1, 2], [3]] =
        .ok (([[1, 2], [3]] : List (List Nat)).length % 18446744073709551616,
             (List.range ([[1, 2], [3]] : List (List Nat)).length).map
               writeNonce, out) ∧
      readSeq idAEAD 2 ([[1, 2], [3]] : List (List Nat)).length (out ++ [5]) =
        .ok ([[1, 2], [3]], [5]) ∧
      (∀ k, k < ([[1, 2], [3]] : List (List Nat)).length →
        writeNonce k = List.replicate 16 0 ++ beBytes 8 k ∧
        (writeNonce k).length = 24 ∧
        (writeNonce k).take 16 = List.replicate 16 0 ∧
        (writeNonce k).drop 16 = beBytes 8 k ∧
        beDec (beBytes 8 k) = k) ∧
      (∀ i j, i < ([[1, 2], [3]] : List (List Nat)).length →
        j < ([[1, 2], [3]] : List (List Nat)).length → i ≠ j →
        writeNonce i ≠ writeNonce j)) :=
  ⟨fun _ _ => rfl,
   fun _ p hp => by fin_cases hp <;> simp [idAEAD],
   fun p hp => by fin_cases hp <;> simp,
   by norm_num,
   aead_roundtrip_nonce_counter idAEAD [[1, 2], [3]] 2 [5]
     (fun _ _ => rfl)
     (fun _ p hp => by fin_cases hp <;> simp [idAEAD])
     (fun p hp => by fin_cases hp <;> simp)
     (by norm_num)⟩

/-- Claim C10: every `ClientAEAD.Write` advances `encCtr` by exactly one
(modulo the `uint64` wrap, exact when the counter has not reached
2^64 - 1), independently of whether the size check or either underlying
write fails; the bytes that do reach the stream carry the nonce built
from the pre-increment counter, so a failed write still consumes its
nonce value. -/
theorem aead_write_counter_always_increments (a : AEADAlg) (ctr : Nat)
    (p : List Nat) (hdrOk ctOk : Bool) :
    (clientAEADWrite a ctr p hdrOk ctOk).2.1 =
        (ctr + 1) % 18446744073709551616 ∧
    (ctr + 1 < 18446744073709551616 →
      (clientAEADWrite a ctr p hdrOk ctOk).2.1 = ctr + 1) ∧
    ((clientAEADWrite a ctr p hdrOk ctOk).2.2 = [] ∨
      (((clientAEADWrite a ctr p hdrOk ctOk).2.2.drop 4).take 24 =
        writeNonce ctr)) := by
  have hmain : (clientAEADWrite a ctr p hdrOk ctOk).2.1 =
      (ctr + 1) % 18446744073709551616 ∧
      ((clientAEADWrite a ctr p hdrOk ctOk).2.2 = [] ∨
        (((clientAEADWrite a ctr p hdrOk ctOk).2.2.drop 4).take 24 =
          writeNonce ctr)) := by
    simp only [clientAEADWrite]
    cases htu : toUint32Size (a.aeadSeal (writeNonce ctr) p).length with
    | error e => simp
    | ok l =>
      cases hdrOk with
      | false => simp
      | true =>
        cases ctOk with
        | false =>
          refine ⟨rfl, Or.inr ?_⟩
          show List.take 24 (List.drop 4 (beBytes 4 l ++ writeNonce ctr)) =
            writeNonce ctr
          rw [drop_append_len _ _ 4 (beBytes_length 4 l)]
          rw [List.take_of_length_le (by rw [writeNonce_length])]
        | true =>
          refine ⟨rfl, Or.inr ?_⟩
          show List.take 24 (List.drop 4 ((beBytes 4 l ++ writeNonce ctr) ++
              a.aeadSeal (writeNonce ctr) p)) = writeNonce ctr
          rw [List.append_assoc, drop_append_len _ _ 4 (beBytes_length 4 l),
            take_append_len _ _ 24 (writeNonce_length ctr)]
  exact ⟨hmain.1, fun h => by rw [hmain.1, Nat.mod_eq_of_lt h], hmain.2⟩

/-- Witness for C10 at the identity cipher, counter 5, plaintext `[1]`
and a failing header write: the counter still advances to 6. -/
theorem aead_write_counter_always_increments_witness :
    5 + 1 < 18446744073709551616 ∧
    (clientAEADWrite idAEAD 5 [1] false true).2.1 = 5 + 1 :=
  ⟨by norm_num,
   (aead_write_counter_always_increments idAEAD 5 [1] false true).2.1
     (by norm_num)⟩

/-- Witness for C2 at the concrete payload `[7, 8]` with trailing
stream `[9]`. -/
theorem udp_packet_roundtrip_and_bounds_witness :
    (1 ≤ ([7, 8] : List Nat).length ∧ ([7, 8] : List Nat).length ≤ 65535) ∧
    (∃ out, writeUDPPacket [7, 8] = .ok out ∧
      readUDPPacket (out ++ [9]) = .ok ([7, 8], [9])) :=
  ⟨by decide,
   udp_packet_roundtrip_and_bounds.1 [7, 8] [9] (by decide) (by decide)⟩

/-- The sleep trace of the dial loop over `k` failures followed by a
success is exactly the double-and-clamp sequence starting at the given
backoff. -/
theorem dialLoop_sleeps (m : MgrSt) (hm : m.stopped = false) (id : Nat)
    (boMax : Int) :
    ∀ (k : Nat) (backoff : Int),
      (dialLoop m backoff boMax
          (List.replicate k DialOutcome.dialFail ++
            [DialOutcome.ok id])).2.2.2 =
        backoffSeq backoff boMax k := by
  intro k
  induction k with
  | zero => intro b; simp [dialLoop, hm, backoffSeq]
  | succ k ih =>
    intro b
    simp only [List.replicate_succ, List.cons_append, dialLoop, hm,
      Bool.false_eq_true, if_false, backoffSeq]
    rw [← ih (nextBackoff b boMax)]
    rfl

/-- Claim C4: once `Manager.Close` has run, every `EnsureSession` call
returns the terminal "stopped" error with no dial attempt, no sleep and
no state change — in particular never a live session — and `Close` is
idempotent. -/
theorem manager_close_terminal_idempotent :
    (∀ (m : MgrSt) (urlOk : Bool) (outcomes : List DialOutcome)
        (boInit boMax : Int),
      ensureSession (managerClose m) urlOk outcomes boInit boMax =
        (.stoppedErr, managerClose m, 0, [])) ∧
    (∀ m : MgrSt, managerClose (managerClose m) = managerClose m) ∧
    (∀ m : MgrSt, (managerClose m).stopped = true ∧
      (managerClose m).sess = none) := by
  refine ⟨?_, fun m => rfl, fun m => ⟨rfl, rfl⟩⟩
  intro m urlOk outcomes b0 bmax
  simp [ensureSession, managerClose]

/-- Counterexample to claim C7 as stated: `nextBackoff` computes the
doubling in `int64` (Go `time.Duration`) arithmetic, so for a current
backoff of 2^62 nanoseconds the product wraps to -2^63 and the result is
not `min(2 * b, b_max)`. -/
theorem next_backoff_overflow_counterexample :
    nextBackoff 4611686018427387904 8 ≠
      min (2 * 4611686018427387904) 8 := by
  have h1 : nextBackoff 4611686018427387904 8 = -9223372036854775808 := by
    simp only [nextBackoff, wrap64]
    norm_num
  have h2 : min (2 * (4611686018427387904 : Int)) 8 = 8 := by
    norm_num
  rw [h1, h2]
  norm_num

/-- Claim C7 (amended): when the doubling does not overflow `int64`, the
next backoff equals `min(2 * b, b_max)` (outside that range the product
wraps, see the counterexample); and within one `EnsureSession` call the
sleep trace for `k` failed dials is `backoff_initial` followed by the
successively doubled-and-clamped values. -/
theorem backoff_law_and_trace :
    (∀ b limit : Int, -9223372036854775808 ≤ 2 * b →
        2 * b < 9223372036854775808 →
        nextBackoff b limit = min (2 * b) limit) ∧
    (∀ (m : MgrSt) (id : Nat) (boInit boMax : Int) (k : Nat),
        m.stopped = false → m.sess = none →
        (ensureSession m true
            (List.replicate k DialOutcome.dialFail ++ [DialOutcome.ok id])
            boInit boMax).2.2.2 = backoffSeq boInit boMax k) ∧
    (∀ (boInit boMax : Int) (k : Nat), 0 < k →
        (backoffSeq boInit boMax k).head? = some boInit) ∧
    (∀ (boInit boMax : Int) (k : Nat),
        backoffSeq boInit boMax (k + 1) =
          boInit :: backoffSeq (nextBackoff boInit boMax) boMax k) := by
  refine ⟨?_, ?_, ?_, fun _ _ _ => rfl⟩
  · intro b limit h1 h2
    have hw : wrap64 (b * 2) = 2 * b := by
      simp only [wrap64]; omega
    simp only [nextBackoff, hw]
    split <;> omega
  · intro m id b0 bmax k hm hs
    simp only [ensureSession, hm, Bool.false_eq_true, if_false, hs,
      Bool.not_true]
    rw [dialLoop_sleeps m hm id bmax k b0]
  · intro b0 bmax k hk
    cases k with
    | zero => omega
    | succ k => rfl

/-- Witness for C7's amended law at `b = 3`, `b_max = 100` (no
overflow), and for the trace at two failures. -/
theorem backoff_law_and_trace_witness :
    (-9223372036854775808 ≤ 2 * (3 : Int) ∧
      2 * (3 : Int) < 9223372036854775808) ∧
    nextBackoff 3 100 = min (2 * 3) 100 ∧
    (({ stopped := false, sess := none, conn := none } : MgrSt).stopped =
        false ∧
      (ensureSession { stopped := false, sess := none, conn := none } true
          (List.replicate 2 DialOutcome.dialFail ++ [DialOutcome.ok 7])
          1 100).2.2.2 = backoffSeq 1 100 2) :=
  ⟨⟨by norm_num, by norm_num⟩,
   backoff_law_and_trace.1 3 100 (by norm_num) (by norm_num),
   rfl,
   backoff_law_and_trace.2.1 { stopped := false, sess := none, conn := none }
     7 1 100 2 rfl rfl⟩

/-- Claim C6: `WSConn.Read` with a buffer over 65536 bytes and
`WSConn.Write` with a buffer over 1048576 bytes fail with the size-cap
error, leave the adapter state untouched and perform zero operations on
the underlying WebSocket connection. -/
theorem wsconn_size_caps :
    (∀ (bufLen fuel : Nat) (st : WSConnSt), bufLen > 65536 →
      wsConnRead bufLen fuel st =
        (.fail "requested buffer size exceeds maximum allowed", st, 0)) ∧
    (∀ (pLen : Nat) (nextWriterOk : Bool), pLen > 1048576 →
      wsConnWrite pLen nextWriterOk =
        (some "message size exceeds maximum allowed", 0)) := by
  constructor
  · intro bufLen fuel st h
    unfold wsConnRead
    rw [if_pos (by omega)]
  · intro pLen wOk h
    unfold wsConnWrite
    rw [if_pos (by omega)]

/-- Witness for C6 at buffer sizes 65537 and 1048577. -/
theorem wsconn_size_caps_witness :
    (65537 > 65536 ∧ 1048577 > 1048576) ∧
    wsConnRead 65537 3 ⟨false, [], "x", none⟩ =
      (.fail "requested buffer size exceeds maximum allowed",
       ⟨false, [], "x", none⟩, 0) ∧
    wsConnWrite 1048577 true =
      (some "message size exceeds maximum allowed", 0) :=
  ⟨⟨by norm_num, by norm_num⟩,
   wsconn_size_caps.1 65537 3 ⟨false, [], "x", none⟩ (by norm_num),
   wsconn_size_caps.2 1048577 true (by norm_num)⟩

/-- Counterexample to claim C5 as stated: "broken pipe" belongs to the
benign close family (and `support.IsBenignCopyError` classifies it
benign), yet the bridge's copy loop logs it, because
`startBufferedCopy` suppresses only `io.EOF` and errors whose text
contains "closed pipe". -/
theorem bridge_logs_broken_pipe_counterexample :
    GoErr.mk "broken pipe" ∈ benignFamily ∧
    IsBenignCopyError (some (GoErr.mk "broken pipe")) = true ∧
    startBufferedCopyLogs (some (GoErr.mk "broken pipe")) = true := by
  refine ⟨by simp [benignFamily], by decide, by decide⟩

/-- Claim C5 (amended): the bridge's copy loop classifies as benign —
and leaves unlogged — exactly `io.EOF` and errors whose text contains
"closed pipe"; the other members of the benign family are logged there
(see the counterexample).  The full family is instead handled by
`support.IsBenignCopyError`, used on the serve-incoming path, which
recognizes every family member except `io.ErrClosedPipe`'s own text. -/
theorem bridge_suppression_exact :
    (∀ e : GoErr, startBufferedCopyLogs (some e) = false ↔
      (e = GoErr.eof ∨ isClosedPipe e = true)) ∧
    (∀ e ∈ benignFamily, e ≠ GoErr.mk "io: read/write on closed pipe" →
      IsBenignCopyError (some e) = true) ∧
    IsBenignCopyError (some (GoErr.mk "io: read/write on closed pipe")) =
      false := by
  refine ⟨?_, ?_, by decide⟩
  · intro e
    cases hb : e == GoErr.eof <;> cases hc : isClosedPipe e <;>
      simp_all [startBufferedCopyLogs]
  · intro e he hne
    fin_cases he <;> first | decide | (exact absurd rfl hne)

/-- Witness for C5's amended claim at the closed-network-connection
sentinel. -/
theorem bridge_suppression_exact_witness :
    (GoErr.errClosed ∈ benignFamily ∧
      GoErr.errClosed ≠ GoErr.mk "io: read/write on closed pipe") ∧
    IsBenignCopyError (some GoErr.errClosed) = true :=
  ⟨⟨by simp [benignFamily], by simp⟩,
   bridge_suppression_exact.2.1 GoErr.errClosed (by simp [benignFamily])
     (by simp)⟩

/-- Counterexample to claim C8 as stated: with encryption enabled and an
empty PSK, `WrapClientStream` does not return the stream unchanged — it
still wraps, with the key derived from the empty secret.  (The hash
parameter stands in for SHA-256; only the 32-byte output length matters
to `Wrap`.) -/
theorem wrap_empty_psk_counterexample :
    WrapClientStream (fun _ => List.replicate 32 0) true [] [116] ≠
      WrapResult.unchanged := by
  decide

/-- Claim C8 (amended): `WrapClientStream` applies the AEAD wrapper
exactly when encryption is enabled, regardless of whether the PSK is
empty; it returns the stream unchanged iff encryption is disabled.
(The CLI validator separately rejects enabled-with-empty-PSK
configurations at startup, before this function can run.) -/
theorem wrap_client_stream_wraps_iff_enabled
    (sha256 : List Nat → List Nat) (enabled : Bool)
    (psk tunnelID : List Nat)
    (hsha : ∀ x, (sha256 x).length = 32) :
    (WrapClientStream sha256 enabled psk tunnelID = WrapResult.unchanged ↔
      enabled = false) ∧
    (enabled = true →
      WrapClientStream sha256 enabled psk tunnelID =
        WrapResult.wrappedAEAD (sha256 (psk ++ tunnelID))) := by
  cases enabled <;> simp [WrapClientStream, clientPSKWrap, hsha]

theorem newlineIdx_append (xs rest : List Char) (h : '\n' ∉ xs) :
    newlineIdx (xs ++ '\n' :: rest) = some xs.length := by
  induction xs with
  | nil => simp [newlineIdx]
  | cons a l ih =>
    have ha : ¬(a = '\n') := fun hh => h (by simp [hh])
    have hl : '\n' ∉ l := fun hm => h (List.mem_cons_of_mem a hm)
    simp [newlineIdx, ha, ih hl]

theorem newlineIdx_none (xs : List Char) (h : '\n' ∉ xs) :
    newlineIdx xs = none := by
  induction xs with
  | nil => rfl
  | cons a l ih =>
    have ha : ¬(a = '\n') := fun hh => h (by simp [hh])
    have hl : '\n' ∉ l := fun hm => h (List.mem_cons_of_mem a hm)
    simp [newlineIdx, ha, ih hl]

theorem trimSpace_append_newline (xs : List Char) :
    trimSpace (xs ++ ['\n']) = trimSpace xs := by
  have h1 : isWS '\n' = true := by decide
  simp [trimSpace, List.reverse_append, List.dropWhile_cons, h1]

theorem dropWhile_no_ws (xs : List Char) (h : ∀ c ∈ xs, isWS c = false) :
    List.dropWhile isWS xs = xs := by
  cases xs with
  | nil => rfl
  | cons a l => simp [List.dropWhile_cons, h a (List.mem_cons_self a l)]

theorem trimSpace_no_ws (xs : List Char) (h : ∀ c ∈ xs, isWS c = false) :
    trimSpace xs = xs := by
  rw [trimSpace,
    dropWhile_no_ws _ (fun c hc => h c (List.mem_reverse.mp hc)),
    List.reverse_reverse, dropWhile_no_ws _ h]

/-- One non-blank decodable line: `readStreamDestination` returns its
`dst` field, whatever the line's length. -/
theorem rsd_step (dec : List Char → Option PrefMap) (line rest : List Char)
    (m : PrefMap) (h1 : '\n' ∉ line) (h2 : trimSpace line = line)
    (h3 : line ≠ []) (h4 : dec line = some m) :
    readStreamDestination dec (line ++ '\n' :: rest) =
      .ok (mapGet m dstKey) := by
  cases line with
  | nil => exact absurd rfl h3
  | cons a l =>
    have hl : '\n' ∉ l := fun hm => h1 (List.mem_cons_of_mem a hm)
    have hidx : newlineIdx (a :: (l ++ '\n' :: rest)) = some (l.length + 1) := by
      have := newlineIdx_append (a :: l) rest h1
      simpa using this
    have htake : (a :: (l ++ '\n' :: rest)).take (l.length + 1 + 1) =
        (a :: l) ++ ['\n'] := by
      rw [List.take_succ_cons,
        show l ++ '\n' :: rest = (l ++ ['\n']) ++ rest by simp,
        take_append_len (l ++ ['\n']) rest (l.length + 1) (by simp)]
      simp
    have hdrop : (a :: (l ++ '\n' :: rest)).drop (l.length + 1 + 1) = rest := by
      rw [List.drop_succ_cons,
        show l ++ '\n' :: rest = (l ++ ['\n']) ++ rest by simp,
        drop_append_len (l ++ ['\n']) rest (l.length + 1) (by simp)]
    have hcond : trimSpace (a :: (l ++ ['\n'])) = a :: l := by
      have he : a :: (l ++ ['\n']) = (a :: l) ++ ['\n'] := by simp
      rw [he, trimSpace_append_newline, h2]
    rw [List.cons_append, readStreamDestination, hidx]
    simp only [htake, hdrop, List.cons_append]
    rw [hcond, if_neg (by simp), h4]

/-- A line that trims to empty is skipped. -/
theorem rsd_skip_blank (dec : List Char → Option PrefMap) (l rest : List Char)
    (hb : trimSpace l = []) (hnl : '\n' ∉ l) :
    readStreamDestination dec (l ++ '\n' :: rest) =
      readStreamDestination dec rest := by
  cases l with
  | nil =>
    have hidx : newlineIdx ('\n' :: rest) = some 0 := by simp [newlineIdx]
    rw [List.nil_append, readStreamDestination, hidx]
    have htrue : trimSpace (('\n' :: rest).take 1) = [] := by
      simp [List.take_succ_cons, trimSpace, List.dropWhile]
    simp only [htrue, if_true]
    simp
  | cons a ll =>
    have hidx : newlineIdx (a :: (ll ++ '\n' :: rest)) =
        some (ll.length + 1) := by
      have := newlineIdx_append (a :: ll) rest hnl
      simpa using this
    have htake : (a :: (ll ++ '\n' :: rest)).take (ll.length + 1 + 1) =
        (a :: ll) ++ ['\n'] := by
      rw [List.take_succ_cons,
        show ll ++ '\n' :: rest = (ll ++ ['\n']) ++ rest by simp,
        take_append_len (ll ++ ['\n']) rest (ll.length + 1) (by simp)]
      simp
    have hdrop : (a :: (ll ++ '\n' :: rest)).drop (ll.length + 1 + 1) =
        rest := by
      rw [List.drop_succ_cons,
        show ll ++ '\n' :: rest = (ll ++ ['\n']) ++ rest by simp,
        drop_append_len (ll ++ ['\n']) rest (ll.length + 1) (by simp)]
    have htrim : trimSpace ((a :: (ll ++ '\n' :: rest)).take
        (ll.length + 1 + 1)) = [] := by
      rw [htake, trimSpace_append_newline, hb]
    rw [List.cons_append, readStreamDestination, hidx]
    simp only [htrim, hdrop, if_true]

/-- No newline before end of input: the reader fails. -/
theorem rsd_no_newline (dec : List Char → Option PrefMap) (input : List Char)
    (h : '\n' ∉ input) : readStreamDestination dec input = .error "EOF" := by
  cases input with
  | nil => simp [readStreamDestination]
  | cons c cs =>
    rw [readStreamDestination, newlineIdx_none _ h]

theorem scanVal_replicate (r : List Char) :
    ∀ n, scanVal (List.replicate n 'a' ++ '"' :: r) =
      some (List.replicate n 'a', r) := by
  intro n
  induction n with
  | zero => simp [scanVal]
  | succ n ih => simp [List.replicate_succ, scanVal, ih]

theorem bigVal_length : bigVal.length = 70000 := by
  simp only [bigVal, List.length_replicate]

theorem bigLine_length : bigLine.length = 70010 := by
  have h : bigLine =
      ['{', '"', 'd', 's', 't', '"', ':', '"'] ++ (bigVal ++ ['"', '}']) := rfl
  rw [h, List.length_append, List.length_append, bigVal_length]
  rfl

theorem bigLine_no_ws : ∀ c ∈ bigLine, isWS c = false := by
  simp only [bigLine, bigVal, List.forall_mem_append, List.forall_mem_cons]
  refine ⟨⟨by decide, ?_⟩, by decide⟩
  intro c hc
  have hc2 := List.eq_of_mem_replicate hc
  subst hc2
  decide

theorem bigLine_no_newline : '\n' ∉ bigLine :=
  fun h => absurd (bigLine_no_ws _ h) (by decide)

theorem bigLine_ne_nil : bigLine ≠ [] := by simp [bigLine]

theorem decodeDstOnly_dst (n : Nat) :
    decodeDstOnly (['{', '"', 'd', 's', 't', '"', ':', '"'] ++
      (List.replicate n 'a' ++ ['"', '}'])) =
      some [(dstKey, List.replicate n 'a')] := by
  simp only [List.cons_append, List.nil_append, decodeDstOnly]
  rw [show List.replicate n 'a' ++ ['"', '}'] =
    List.replicate n 'a' ++ '"' :: ['}'] from rfl]
  rw [scanVal_replicate ['}'] n]
  rfl

theorem decodeDstOnly_bigLine :
    decodeDstOnly bigLine = some [(dstKey, bigVal)] := by
  rw [show bigLine =
    ['{', '"', 'd', 's', 't', '"', ':', '"'] ++ (bigVal ++ ['"', '}'])
    from rfl]
  simp only [bigVal]
  exact decodeDstOnly_dst 70000

/-- Witness for C8's amended claim with a constant 32-byte hash and
encryption disabled. -/
theorem wrap_client_stream_wraps_iff_enabled_witness :
    (∀ x : List Nat, (List.replicate 32 0).length = 32) ∧
    (WrapClientStream (fun _ => List.replicate 32 0) false [1] [2] =
        WrapResult.unchanged ↔ false = false) :=
  ⟨fun _ => by simp,
   (wrap_client_stream_wraps_iff_enabled (fun _ => List.replicate 32 0)
     false [1] [2] (fun _ => by simp)).1⟩

/-- Claim C3: for every preface map that contains the key `dst`
(encoded by the external `encoding/json` encoder, whose output is a
nonempty single line with no surrounding whitespace and whose decoder
inverts it on that output — the four codec hypotheses),
`readStreamDestination` applied to `encodePreface`'s bytes returns the
map's `dst` value; blank interior lines (lines that trim to empty) are
skipped; and end of input before any newline is an error. -/
theorem preface_roundtrip (marshal : PrefMap → List Char)
    (dec : List Char → Option PrefMap) (M : PrefMap)
    (hrt : dec (marshal M) = some M)
    (htrim : trimSpace (marshal M) = marshal M)
    (hne : marshal M ≠ [])
    (hnl : '\n' ∉ marshal M)
    (hdst : mapHasKey M dstKey = true) :
    readStreamDestination dec (encodePreface marshal M) =
      .ok (mapGet M dstKey) ∧
    (∀ blanks : List (List Char),
      (∀ l ∈ blanks, trimSpace l = [] ∧ '\n' ∉ l) →
      readStreamDestination dec
          (blanks.foldr (fun l acc => l ++ '\n' :: acc)
            (encodePreface marshal M)) =
        .ok (mapGet M dstKey)) ∧
    (∀ input : List Char, '\n' ∉ input →
      readStreamDestination dec input = .error "EOF") := by
  have hmain : readStreamDestination dec (encodePreface marshal M) =
      .ok (mapGet M dstKey) := by
    have he : encodePreface marshal M = marshal M ++ '\n' :: [] := rfl
    rw [he, rsd_step dec (marshal M) [] M hnl htrim hne hrt]
  refine ⟨hmain, ?_, rsd_no_newline dec⟩
  intro blanks hbl
  induction blanks with
  | nil => exact hmain
  | cons l ls ih =>
    rw [List.foldr_cons,
      rsd_skip_blank dec l _ (hbl l (by simp)).1 (hbl l (by simp)).2]
    exact ih (fun q hq => hbl q (List.mem_cons_of_mem l hq))

/-- Witness for C3 at the one-entry map `dst -> x`, with the concrete
codec fragment `decodeDstOnly` and the encoder output `smallPreface`. -/
theorem preface_roundtrip_witness :
    (decodeDstOnly smallPreface = some [(dstKey, ['x'])] ∧
      trimSpace smallPreface = smallPreface ∧
      smallPreface ≠ [] ∧ '\n' ∉ smallPreface ∧
      mapHasKey [(dstKey, ['x'])] dstKey = true) ∧
    readStreamDestination decodeDstOnly
        (encodePreface (fun _ => smallPreface) [(dstKey, ['x'])]) =
      .ok (mapGet [(dstKey, ['x'])] dstKey) :=
  ⟨⟨by decide, by decide, by decide, by decide, by decide⟩,
   (preface_roundtrip (fun _ => smallPreface) decodeDstOnly [(dstKey, ['x'])]
     (by decide) (by decide) (by decide) (by decide) (by decide)).1⟩

/-- Counterexample to claim C9 as stated: a syntactically valid preface
line of 70010 bytes — more than 64 KiB = 65536 bytes before the
terminating newline — is accepted by `readStreamDestination`, which
returns its destination instead of an error.  (`decodeDstOnly` is the
behaviour of `encoding/json` on this input.) -/
theorem oversized_preface_accepted_counterexample :
    bigLine.length = 70010 ∧ 70010 > 65536 ∧
    readStreamDestination decodeDstOnly (bigLine ++ '\n' :: []) =
      .ok bigVal := by
  refine ⟨bigLine_length, by norm_num, ?_⟩
  rw [rsd_step decodeDstOnly bigLine [] [(dstKey, bigVal)]
    bigLine_no_newline (trimSpace_no_ws bigLine bigLine_no_ws)
    bigLine_ne_nil decodeDstOnly_bigLine]
  simp [mapGet]

/-- Claim C9 (amended): `readStreamDestination` imposes no size cap:
every decoder-accepted single line — of any length, in particular
longer than 64 KiB — yields its destination; the reader fails only on
end-of-input before a newline or on a decoder failure, never because
of length. -/
theorem preface_no_size_cap (dec : List Char → Option PrefMap)
    (line rest : List Char) (m : PrefMap)
    (h1 : '\n' ∉ line) (h2 : trimSpace line = line) (h3 : line ≠ [])
    (h4 : dec line = some m) :
    readStreamDestination dec (line ++ '\n' :: rest) =
      .ok (mapGet m dstKey) :=
  rsd_step dec line rest m h1 h2 h3 h4

/-- Witness for C9's amended claim at the 70010-byte line of the
counterexample, showing acceptance well past the 64 KiB mark. -/
theorem preface_no_size_cap_witness :
    ('\n' ∉ bigLine ∧ trimSpace bigLine = bigLine ∧ bigLine ≠ [] ∧
      decodeDstOnly bigLine = some [(dstKey, bigVal)]) ∧
    readStreamDestination decodeDstOnly (bigLine ++ '\n' :: []) =
      .ok (mapGet [(dstKey, bigVal)] dstKey) :=
  ⟨⟨bigLine_no_newline, trimSpace_no_ws bigLine bigLine_no_ws,
    bigLine_ne_nil, decodeDstOnly_bigLine⟩,
   preface_no_size_cap decodeDstOnly bigLine [] [(dstKey, bigVal)]
     bigLine_no_newline (trimSpace_no_ws bigLine bigLine_no_ws)
     bigLine_ne_nil decodeDstOnly_bigLine⟩

end FT
